import Mathlib

/-!
Verification of the transport/protocol layer of a generative-AI Go client.

Shallow embedding conventions:
* Go strings are modelled as `List Char` (`Str`), Go byte slices as `List Nat`.
* Go `any` values reaching the transforms are modelled by `GoVal`
  (a string, or some non-string value).
* A Go function that can return an `error`, or panic at runtime
  (failed type assertion, nil-pointer dereference), returns a result type
  with explicit `err` / `panic` constructors.
* JSON (un)marshalling of opaque payloads is modelled by oracle functions
  passed as parameters, since the typed payload structs live outside the
  embedded core.
-/

/-- Go strings, modelled as lists of characters. -/
abbrev Str := List Char

/-- Models Go `strings.HasPrefix s p`. -/
def hasPrefix : Str → Str → Bool
  | _, [] => true
  | [], _ :: _ => false
  | c :: s, q :: p => (c == q) && hasPrefix s p

/-- Models Go `strings.Contains s c` for a one-character separator `c`. -/
def containsChar (s : Str) (c : Char) : Bool :=
  s.any (· == c)

/-- Models Go `strings.Count s c` for a one-character pattern `c`. -/
def countChar (s : Str) (c : Char) : Nat :=
  (s.filter (· == c)).length

/-- Models Go `strings.SplitN s c 2` (and `bytes.Cut`): splits at the first
occurrence of `c`, returning the part before and the part after; when `c`
does not occur, returns `(s, [])`. -/
def splitFirst : Str → Char → Str × Str
  | [], _ => ([], [])
  | x :: xs, c =>
    if x == c then ([], xs)
    else
      let p := splitFirst xs c
      (x :: p.1, p.2)

/-- The two deployment surfaces (`Backend` in the source). -/
inductive Backend where
  | BackendGeminiAPI
  | BackendVertexAI
deriving DecidableEq

/-- The slice of `ClientConfig` read by the embedded transforms. -/
structure ClientConfig where
  Backend : Backend
  Project : Str
  Location : Str
  APIKey : Str

/-- A Go `any` value as received by the transformer functions: either a
string or some non-string value. -/
inductive GoVal where
  | str (s : Str)
  | nonString
deriving DecidableEq

/-- Result of a Go transformer returning `(string, error)`, with runtime
panics (failed type assertions) made explicit. -/
inductive TransformResult where
  | ok (s : Str)
  | err (msg : String)
  | panic
deriving DecidableEq

/-- Embeds `tResourceName` from transformer.go. -/
def tResourceName (ac : ClientConfig) (resourceName collectionIdentifier : Str)
    (collectionHierarchyDepth : Nat) : Str :=
  let shouldPrependCollectionIdentifier :=
    !hasPrefix resourceName (collectionIdentifier ++ ['/']) &&
      (countChar (collectionIdentifier ++ '/' :: resourceName) '/' + 1
        == collectionHierarchyDepth)
  match ac.Backend with
  | .BackendVertexAI =>
    if hasPrefix resourceName ("projects/".toList) then
      resourceName
    else if hasPrefix resourceName ("locations/".toList) then
      "projects/".toList ++ ac.Project ++ '/' :: resourceName
    else if hasPrefix resourceName (collectionIdentifier ++ ['/']) then
      "projects/".toList ++ ac.Project ++ "/locations/".toList ++ ac.Location
        ++ '/' :: resourceName
    else if shouldPrependCollectionIdentifier then
      "projects/".toList ++ ac.Project ++ "/locations/".toList ++ ac.Location
        ++ '/' :: collectionIdentifier ++ '/' :: resourceName
    else
      resourceName
  | .BackendGeminiAPI =>
    if shouldPrependCollectionIdentifier then
      collectionIdentifier ++ '/' :: resourceName
    else
      resourceName

/-- Embeds `tCachedContentName` from transformer.go: `name.(string)` is an
unchecked type assertion, so a non-string input panics. -/
def tCachedContentName (ac : ClientConfig) (name : GoVal) : TransformResult :=
  match name with
  | .str s => .ok (tResourceName ac s ("cachedContents".toList) 2)
  | .nonString => .panic

/-- Embeds `tModel` from transformer.go. -/
def tModel (ac : ClientConfig) (origin : GoVal) : TransformResult :=
  match origin with
  | .str model =>
    if model = [] then .err "tModel: model is empty"
    else
      match ac.Backend with
      | .BackendVertexAI =>
        if hasPrefix model ("projects/".toList) || hasPrefix model ("models/".toList)
            || hasPrefix model ("publishers/".toList) then
          .ok model
        else if containsChar model '/' then
          let parts := splitFirst model '/'
          .ok ("publishers/".toList ++ parts.1 ++ "/models/".toList ++ parts.2)
        else
          .ok ("publishers/google/models/".toList ++ model)
      | .BackendGeminiAPI =>
        if hasPrefix model ("models/".toList) || hasPrefix model ("tunedModels/".toList) then
          .ok model
        else
          .ok ("models/".toList ++ model)
  | .nonString => .err "tModel: model is not a string"

/-- Embeds `tModelFullName` from transformer.go. -/
def tModelFullName (ac : ClientConfig) (origin : GoVal) : TransformResult :=
  match origin with
  | .str model =>
    match tModel ac (.str model) with
    | .err e => .err ("tModelFullName: " ++ e)
    | .panic => .panic
    | .ok name =>
      if hasPrefix name ("publishers/".toList) && ac.Backend == .BackendVertexAI then
        .ok ("projects/".toList ++ ac.Project ++ "/locations/".toList ++ ac.Location
          ++ '/' :: name)
      else if hasPrefix name ("models/".toList) && ac.Backend == .BackendVertexAI then
        .ok ("projects/".toList ++ ac.Project ++ "/locations/".toList ++ ac.Location
          ++ "/publishers/google/".toList ++ name)
      else
        .ok name
  | .nonString => .err "tModelFullName: model is not a string"

/-- Models Go `dropCR` from the stream scanner: drops one terminal `\r`
(byte 13) from the data. -/
def dropCR (data : List Nat) : List Nat :=
  if data.getLast? == some 13 then data.dropLast else data

/-- Models Go `bytes.Index data pat`: index of the first occurrence of the
byte pattern `pat` in `data`, `none` when absent. -/
def indexOfSub? (pat : List Nat) : List Nat → Option Nat
  | [] => if pat.isPrefixOf ([] : List Nat) then some 0 else none
  | d :: t =>
    if pat.isPrefixOf (d :: t) then some 0
    else (indexOfSub? pat t).map (· + 1)

/-- Embeds the Stream Decoder's `scan` split function. The result models
Go's `(advance, token, err)` (the code never returns a non-nil err):
`none` is a nil token (request more data / stop), `some tok` an emitted
token. -/
def scan (data : List Nat) (atEOF : Bool) : Nat × Option (List Nat) :=
  if atEOF ∧ data = [] then (0, none)
  else
    match indexOfSub? [10, 10] data with
    | some i => (i + 2, some (dropCR (data.take i)))
    | none =>
      match indexOfSub? [13, 10, 13, 10] data with
      | some i => (i + 4, some (dropCR (data.take i)))
      | none =>
        if atEOF then (data.length, some (dropCR data))
        else (0, none)

/-- `pat` occurs in `data` starting at index `i`. -/
def OccursAt (pat data : List Nat) (i : Nat) : Prop :=
  pat.isPrefixOf (data.drop i) = true

instance (pat data : List Nat) (i : Nat) : Decidable (OccursAt pat data i) := by
  unfold OccursAt; infer_instance

/-- Modelled from the claim's words, as the refinement target for the
split-function claim: the token is everything before the first occurrence
in the buffer of a blank-line delimiter - either of the two delimiters,
whichever occurs first - with a single trailing carriage return stripped;
at end-of-input with no delimiter the remaining bytes form the final
token. -/
def scanSpecC1 (data : List Nat) (atEOF : Bool) : Nat × Option (List Nat) :=
  match indexOfSub? [10, 10] data, indexOfSub? [13, 10, 13, 10] data with
  | some a, some b =>
    if a ≤ b then (a + 2, some (dropCR (data.take a)))
    else (b + 4, some (dropCR (data.take b)))
  | some a, none => (a + 2, some (dropCR (data.take a)))
  | none, some b => (b + 4, some (dropCR (data.take b)))
  | none, none =>
    if atEOF then
      if data = [] then (0, none) else (data.length, some (dropCR data))
    else (0, none)

/-- `APIError` from the source: a server-reported failure. Detail maps are
modelled as association lists. -/
structure APIError where
  Code : Int
  Message : String
  Status : String
  Details : List (List (String × String))
deriving DecidableEq

/-- The body of a non-2xx HTTP response, as observed by `newAPIError`
after `io.ReadAll` and `json.Unmarshal` into `responseWithError`:
* `readError` - reading the body itself failed;
* `empty` - zero-length body;
* `malformed` - non-empty body that is not well-formed JSON;
* `parsed info` - well-formed JSON object whose `error` field unmarshals
  to `info` (`none` when the `error` key is absent or null, leaving the
  `ErrorInfo` pointer nil). -/
inductive ErrorBody where
  | readError
  | empty
  | malformed
  | parsed (errorInfo : Option APIError)
deriving DecidableEq

/-- The slice of Go `http.Response` read by the error-decoding path. -/
structure Response where
  StatusCode : Int
  Status : String
  Body : ErrorBody
deriving DecidableEq

/-- A Go `error` value produced by the error-decoding path, with the
nil-pointer dereference of `*respWithError.ErrorInfo` made explicit. -/
inductive GoError where
  | apiError (e : APIError)
  | wrapped (msg : String)
  | nilPanic
deriving DecidableEq

/-- Embeds `httpStatusOk`. -/
def httpStatusOk (resp : Response) : Bool :=
  200 ≤ resp.StatusCode && resp.StatusCode < 300

/-- Embeds `newAPIError`: decodes a non-2xx response body into an error.
Note the `parsed none` case: the code returns `*respWithError.ErrorInfo`
without a nil check, a nil-pointer dereference. -/
def newAPIError (resp : Response) : GoError :=
  match resp.Body with
  | .readError => .wrapped "newAPIError: error reading response body"
  | .empty =>
    .apiError { Code := resp.StatusCode, Message := "", Status := resp.Status, Details := [] }
  | .malformed => .wrapped "newAPIError: unmarshal response to error failed"
  | .parsed none => .nilPanic
  | .parsed (some e) => .apiError e

/-- A protocol/decoding error surfaced per item on a response stream,
following the three `fmt.Errorf` sites in `iterateResponseStream`.
Underlying JSON / converter errors are opaque strings. -/
inductive StreamErr where
  | unmarshal (data : Str) (e : String)
  | convert (e : String)
  | invalidChunk (pre data : Str)
deriving DecidableEq

/-- One element yielded on the `iter.Seq2[*R, error]`: a possibly-nil
event paired with a possibly-nil error. -/
abbrev StreamItem (R : Type) := Option R × Option StreamErr

/-- Embeds the `case "data"` arm of `iterateResponseStream` for one token.
`unmarshal` models `json.Unmarshal(data, &respRaw)`: it returns the error
(if any) together with the state of the map afterwards (partially filled
on failure). `conv` models the caller-supplied `responseConverter`,
returning the response pointer and the error. Note the fall-throughs of
the source: after a yielded unmarshal error the converter still runs on
the map, and after a yielded converter error `yield(resp, nil)` still
runs. -/
def dataTokenItems {M R : Type} (unmarshal : Str → Option String × M)
    (conv : M → Option R × Option String) (data : Str) : List (StreamItem R) :=
  let u := unmarshal data
  (match u.1 with
   | some e => [(none, some (.unmarshal data e))]
   | none => []) ++
  (let c := conv u.2
   (match c.2 with
    | some e => [(none, some (.convert e))]
    | none => []) ++ [(c.1, none)])

/-- Embeds one iteration of the `for rs.r.Scan()` loop of
`iterateResponseStream`: the items yielded for one scanned token. -/
def tokenItems {M R : Type} (unmarshal : Str → Option String × M)
    (conv : M → Option R × Option String) (line : Str) : List (StreamItem R) :=
  if line = [] then []
  else
    let cut := splitFirst line ':'
    if cut.1 = "data".toList then dataTokenItems unmarshal conv cut.2
    else [(none, some (.invalidChunk cut.1 cut.2))]

/-- Embeds `iterateResponseStream`: the full sequence of items yielded for
the scanned tokens when the consumer keeps pulling. A consumer that stops
pulling after `k` items sees exactly the length-`k` prefix of this list
(each `if !yield(..) return` only cuts the sequence short). -/
def iterateResponseStream {M R : Type} (unmarshal : Str → Option String × M)
    (conv : M → Option R × Option String) (tokens : List Str) : List (StreamItem R) :=
  tokens.flatMap (tokenItems unmarshal conv)

/-- The slice of `LiveClientMessage` read by `Session.Send`: the `Setup`
payload (its contents are irrelevant to Send) and the rest of the message,
both opaque. -/
structure LiveClientMessage (S B : Type) where
  Setup : Option S
  body : B

/-- Embeds `Session.Send` from live.go. The websocket is modelled by the
list of text frames written so far; `marshal` models `json.Marshal` on the
message. On an error return no frame is written. -/
def Session.Send {S B : Type} (marshal : LiveClientMessage S B → Except String Str)
    (frames : List Str) (input : LiveClientMessage S B) : Except String (List Str) :=
  if input.Setup.isSome then
    .error "message SetUp is not supported in Send(). Use Connect() instead"
  else
    match marshal input with
    | .error e => .error ("marshal client message error: " ++ e)
    | .ok data => .ok (frames ++ [data])

/-- `maxChunkSize` from the source: the 8 MiB chunk ceiling. -/
def maxChunkSize : Nat := 8 * 1024 * 1024

/-- One chunk request sent by `uploadFile`: its offset header, its
content-length, and its `X-Goog-Upload-Command` header. -/
structure Chunk where
  offset : Nat
  size : Nat
  command : String
deriving DecidableEq

/-- The environment `uploadFile` interacts with, indexed by iteration:
`read i n` models the `r.Read` call of iteration `i` on a buffer of `n`
bytes (`.error` is an io error); `bodyOk i` whether
`deserializeUnaryResponse` succeeds on the `i`-th response; `status i`
the `X-Goog-Upload-Status` header of the `i`-th response; `fileField i`
the `file` field of the `i`-th response body when present and convertible
to a `File` (the `File` struct itself is opaque, type `F`). -/
structure UploadEnv (F : Type) where
  read : Nat → Nat → Except Unit Nat
  bodyOk : Nat → Bool
  status : Nat → String
  fileField : Nat → Option F

/-- Result of `uploadFile`: a `File` on success, a Go error, or the
runtime panic of the unchecked `respBody["file"].(map[string]any)` type
assertion. `outOfFuel` is a model artifact that cannot occur when the
fuel exceeds the number of loop iterations. -/
inductive UploadResult (F : Type) where
  | file (f : F)
  | error (msg : String)
  | panic
  | outOfFuel
deriving DecidableEq

/-- Embeds the post-loop validation of `uploadFile` after the `i`-th
response broke the loop: the final upload status must be `final`, then
the `file` field of the last response body is converted to a `File`. -/
def finishUpload {F : Type} (env : UploadEnv F) (i : Nat) : UploadResult F :=
  if env.status i ≠ "final" then
    .error "Failed to upload file: Upload status is not finalized"
  else
    match env.fileField i with
    | some f => .file f
    | none => .panic

/-- Embeds the `for` loop of `uploadFile`. Arguments mirror the loop
state: current offset, current `uploadCommand` string (the `, finalize`
suffix, once appended, persists), iteration index `i`, and the chunks
sent so far. Returns all chunk requests sent together with the result. -/
def uploadChunks {F : Type} (env : UploadEnv F) (uploadSize : Nat) :
    Nat → Nat → String → Nat → List Chunk → List Chunk × UploadResult F
  | 0, _, _, _, acc => (acc, .outOfFuel)
  | fuel + 1, offset, cmd, i, acc =>
    let chunkSize := min maxChunkSize (uploadSize - offset)
    let cmd' := if uploadSize ≤ offset + chunkSize then cmd ++ ", finalize" else cmd
    match env.read i chunkSize with
    | .error _ => (acc, .error "Failed to read bytes from file")
    | .ok bytesRead =>
      if bytesRead ≠ chunkSize then
        (acc, .error "Failed to read bytes from file: short read")
      else
        let acc' := acc ++ [⟨offset, chunkSize, cmd'⟩]
        if env.bodyOk i = false then
          (acc', .error "response body is invalid")
        else if env.status i ≠ "active" then
          (acc', finishUpload env i)
        else if uploadSize ≤ offset + chunkSize then
          (acc', .error "All content has been uploaded, but the upload status is not finalized")
        else
          uploadChunks env uploadSize fuel (offset + chunkSize) cmd' (i + 1) acc'

/-- Embeds `uploadFile` from the source: chunked upload of `uploadSize`
declared bytes. The initial command is `upload`; `uploadSize + 1` fuel is
more than the loop can ever iterate (each iteration that recurses
advances the offset by at least one byte). -/
def uploadFile {F : Type} (env : UploadEnv F) (uploadSize : Nat) :
    List Chunk × UploadResult F :=
  uploadChunks env uploadSize (uploadSize + 1) 0 "upload" 0 []

/-- A Gemini-API (direct backend) client configuration used as concrete input. -/
def cfgGemini : ClientConfig := ⟨.BackendGeminiAPI, "p".toList, "l".toList, []⟩

/-- A Vertex-AI (hosted backend) client configuration used as concrete input. -/
def cfgVertex : ClientConfig := ⟨.BackendVertexAI, "p".toList, "l".toList, []⟩

/-- Claim C3: the Transport Executor treats a status in [200,300) as
success; any other status is decoded into an error: a well-formed
`error`-object body yields that `APIError` verbatim, an empty body yields
an `APIError` built from the status code and status text alone. -/
theorem transport_status_classification (resp : Response) :
    (httpStatusOk resp = true ↔ 200 ≤ resp.StatusCode ∧ resp.StatusCode < 300)
    ∧ (httpStatusOk resp = false →
        (∀ e : APIError, resp.Body = .parsed (some e) → newAPIError resp = .apiError e)
        ∧ (resp.Body = .empty →
            newAPIError resp =
              .apiError ⟨resp.StatusCode, "", resp.Status, []⟩)) := by
  refine ⟨?_, fun _ => ⟨?_, ?_⟩⟩
  · simp [httpStatusOk]
  · intro e he; simp [newAPIError, he]
  · intro he; simp [newAPIError, he]

/-- Witness for the transport classification claim at a concrete 404
response with a well-formed error body. -/
theorem transport_status_classification_witness :
    newAPIError ⟨404, "404 Not Found", .parsed (some ⟨404, "m", "NOT_FOUND", []⟩)⟩ =
      .apiError ⟨404, "m", "NOT_FOUND", []⟩ :=
  ((transport_status_classification _).2 (by decide)).1 _ rfl

/-- Claim C9: error decoding of a non-2xx response is total only when the
body's JSON has an `error` field: a non-empty well-formed body without it
reaches the nil-dereference of `*respWithError.ErrorInfo` instead of
producing an error value. -/
theorem newAPIError_missing_error_field_panics :
    httpStatusOk ⟨404, "404 Not Found", .parsed none⟩ = false ∧
    newAPIError ⟨404, "404 Not Found", .parsed none⟩ = .nilPanic := by
  exact ⟨by decide, rfl⟩

/-- Claim C8: Session.Send rejects any message carrying a Setup payload
with an explicit error and writes no frame; a message without Setup is
serialized and written as exactly one frame. -/
theorem session_send_contract {S B : Type}
    (marshal : LiveClientMessage S B → Except String Str)
    (frames : List Str) (input : LiveClientMessage S B) :
    (∀ s : S, input.Setup = some s →
      Session.Send marshal frames input =
        .error "message SetUp is not supported in Send(). Use Connect() instead")
    ∧ (input.Setup = none → ∀ d : Str, marshal input = .ok d →
      Session.Send marshal frames input = .ok (frames ++ [d])) := by
  constructor
  · intro s hs; simp [Session.Send, hs]
  · intro hs d hd; simp [Session.Send, hs, hd]

/-- Witness for the Send contract: a setup-free message is written as one
frame. -/
theorem session_send_contract_witness :
    Session.Send (S := Unit) (B := Unit) (fun _ => .ok ("x".toList)) []
      ⟨none, ()⟩ = .ok [("x".toList)] :=
  (session_send_contract _ _ _).2 rfl _ rfl

/-- Counterexample to claim C6 as stated: the cached-content name
transform does not fail on an empty identifier (it returns
`cachedContents/`), and it panics - rather than returning an error - on a
non-string identifier. -/
theorem tCachedContentName_validation_cex :
    tCachedContentName cfgGemini (.str []) = .ok ("cachedContents/".toList) ∧
    tCachedContentName cfgGemini .nonString = .panic := by decide

/-- Claim C6 as amended: the model transforms (`tModel`,
`tModelFullName`) return input-validation errors on empty or non-string
identifiers, but `tCachedContentName` does not validate: it panics on a
non-string identifier and succeeds on the empty one. -/
theorem transforms_validation_amended (ac : ClientConfig) :
    tModel ac (.str []) = .err "tModel: model is empty"
    ∧ tModel ac .nonString = .err "tModel: model is not a string"
    ∧ tModelFullName ac (.str []) = .err "tModelFullName: tModel: model is empty"
    ∧ tModelFullName ac .nonString = .err "tModelFullName: model is not a string"
    ∧ tCachedContentName ac .nonString = .panic
    ∧ ∃ s : Str, tCachedContentName ac (.str []) = .ok s := by
  refine ⟨rfl, rfl, ?_, rfl, rfl, ⟨_, rfl⟩⟩
  simp [tModelFullName, tModel]

/-- Counterexample to claim C2 as stated: on the hosted backend an
identifier already starting with `<collection>/` is not returned
unchanged - the project/location prefix is prepended. -/
theorem tResourceName_collection_prefix_cex :
    tResourceName cfgVertex ("cachedContents/abc".toList) ("cachedContents".toList) 2 =
      ("projects/p/locations/l/cachedContents/abc".toList) ∧
    tResourceName cfgVertex ("cachedContents/abc".toList) ("cachedContents".toList) 2 ≠
      ("cachedContents/abc".toList) := by decide

/-- Claim C2 as amended: an identifier already starting with
`<collection>/` is returned unchanged on the direct backend; on the
hosted backend (when it does not also start with `projects/` or
`locations/`) it is returned with `projects/<project>/locations/<location>/`
prepended. -/
theorem tResourceName_collection_prefix_amended (ac : ClientConfig)
    (name coll : Str) (depth : Nat)
    (h : hasPrefix name (coll ++ ['/']) = true) :
    (ac.Backend = .BackendGeminiAPI → tResourceName ac name coll depth = name)
    ∧ (ac.Backend = .BackendVertexAI →
        hasPrefix name ("projects/".toList) = false →
        hasPrefix name ("locations/".toList) = false →
        tResourceName ac name coll depth =
          "projects/".toList ++ ac.Project ++ "/locations/".toList ++ ac.Location
            ++ '/' :: name) := by
  constructor
  · intro hb; simp [tResourceName, hb, h]
  · intro hb h1 h2
    simp only [tResourceName, hb]
    simp at h1 h2
    simp [h1, h2, h]

/-- Witness for the amended collection-prefix claim on both backends. -/
theorem tResourceName_collection_prefix_amended_witness :
    tResourceName cfgGemini ("cachedContents/x".toList) ("cachedContents".toList) 2 =
      ("cachedContents/x".toList) ∧
    tResourceName cfgVertex ("cachedContents/x".toList) ("cachedContents".toList) 2 =
      "projects/".toList ++ cfgVertex.Project ++ "/locations/".toList
        ++ cfgVertex.Location ++ '/' :: ("cachedContents/x".toList) :=
  ⟨(tResourceName_collection_prefix_amended cfgGemini _ _ 2 (by decide)).1 rfl,
   (tResourceName_collection_prefix_amended cfgVertex _ _ 2 (by decide)).2 rfl
     (by decide) (by decide)⟩

/-- Counterexample to claim C1 as stated: when a Windows-style delimiter
occurs before a `\n\n` delimiter, the split function does not use the
first delimiter occurrence - it prefers the later `\n\n`. On the buffer
`\r\n\r\nX\n\n` (not at end-of-input) the code emits `\r\n\r\nX` and
advances 7, while the claim demands the empty token and advance 4. -/
theorem scan_delimiter_priority_cex :
    scan [13, 10, 13, 10, 88, 10, 10] false = (7, some [13, 10, 13, 10, 88]) ∧
    scanSpecC1 [13, 10, 13, 10, 88, 10, 10] false = (4, some []) ∧
    scan [13, 10, 13, 10, 88, 10, 10] false ≠
      scanSpecC1 [13, 10, 13, 10, 88, 10, 10] false := by decide

/-- `containsChar` distributes over append. -/
theorem containsChar_append (a b : Str) (c : Char) :
    containsChar (a ++ b) c = (containsChar a c || containsChar b c) := by
  simp [containsChar, List.any_append]

/-- A string contains every character contained in one of its prefixes. -/
theorem containsChar_of_hasPrefix {s p : Str} {c : Char}
    (hp : hasPrefix s p = true) (hc : containsChar p c = true) :
    containsChar s c = true := by
  induction p generalizing s with
  | nil => simp [containsChar] at hc
  | cons q ps ih =>
    cases s with
    | nil => simp [hasPrefix] at hp
    | cons x xs =>
      simp only [hasPrefix, Bool.and_eq_true, beq_iff_eq] at hp
      obtain ⟨hxq, hrest⟩ := hp
      simp only [containsChar, List.any_cons, Bool.or_eq_true, beq_iff_eq] at hc ⊢
      rcases hc with h | h
      · exact Or.inl (hxq.trans h)
      · exact Or.inr (by simpa [containsChar] using ih hrest (by simpa [containsChar] using h))

/-- A string not containing a character has no prefix containing it. -/
theorem hasPrefix_eq_false_of_not_contains {s p : Str} {c : Char}
    (hs : containsChar s c = false) (hp : containsChar p c = true) :
    hasPrefix s p = false := by
  cases h : hasPrefix s p
  · rfl
  · exact absurd (containsChar_of_hasPrefix h hp) (by simp [hs])

/-- `splitFirst` splits exactly at the first separator occurrence. -/
theorem splitFirst_eq_of_not_contains {vendor : Str} (rest : Str) {c : Char}
    (h : containsChar vendor c = false) :
    splitFirst (vendor ++ c :: rest) c = (vendor, rest) := by
  induction vendor with
  | nil => simp [splitFirst]
  | cons x xs ih =>
    simp only [containsChar, List.any_cons, Bool.or_eq_false_iff, beq_eq_false_iff_ne] at h
    obtain ⟨hx, hxs⟩ := h
    have ih' := ih (by simpa [containsChar] using hxs)
    simp [splitFirst, hx, ih']

/-- Claim C5: the model transform's backend-specific rules. Hosted
backend: identity on `projects/`-, `models/`- and
`publishers/`-prefixed identifiers, `vendor/name` becomes
`publishers/vendor/models/name`, a bare name becomes
`publishers/google/models/<name>`. Direct backend: identity on
`models/`- and `tunedModels/`-prefixed identifiers, anything else
becomes `models/<name>`. -/
theorem tModel_backend_rules (ac : ClientConfig) (model : Str) (hne : model ≠ []) :
    (ac.Backend = .BackendVertexAI →
      (hasPrefix model ("projects/".toList) || hasPrefix model ("models/".toList)
        || hasPrefix model ("publishers/".toList)) = true →
      tModel ac (.str model) = .ok model)
    ∧ (ac.Backend = .BackendVertexAI →
      ∀ vendor rest : Str, model = vendor ++ '/' :: rest →
        containsChar vendor '/' = false →
        hasPrefix model ("projects/".toList) = false →
        hasPrefix model ("models/".toList) = false →
        hasPrefix model ("publishers/".toList) = false →
        tModel ac (.str model) =
          .ok ("publishers/".toList ++ vendor ++ "/models/".toList ++ rest))
    ∧ (ac.Backend = .BackendVertexAI → containsChar model '/' = false →
        tModel ac (.str model) = .ok ("publishers/google/models/".toList ++ model))
    ∧ (ac.Backend = .BackendGeminiAPI →
        (hasPrefix model ("models/".toList) || hasPrefix model ("tunedModels/".toList)) = true →
        tModel ac (.str model) = .ok model)
    ∧ (ac.Backend = .BackendGeminiAPI →
        (hasPrefix model ("models/".toList) || hasPrefix model ("tunedModels/".toList)) = false →
        tModel ac (.str model) = .ok ("models/".toList ++ model)) := by
  refine ⟨?_, ?_, ?_, ?_, ?_⟩
  · intro hb hpre
    simp only [tModel, if_neg hne, hb]
    rw [if_pos hpre]
  · intro hb vendor rest hmodel hvendor h1 h2 h3
    subst hmodel
    simp at h1 h2 h3
    simp only [tModel, if_neg hne, hb]
    rw [if_neg (by simp [h1, h2, h3]),
      if_pos (show containsChar (vendor ++ '/' :: rest) '/' = true by
        simp [containsChar_append, containsChar]),
      splitFirst_eq_of_not_contains rest hvendor]
  · intro hb hcont
    have h1 : hasPrefix model ("projects/".toList) = false :=
      hasPrefix_eq_false_of_not_contains hcont (by decide)
    have h2 : hasPrefix model ("models/".toList) = false :=
      hasPrefix_eq_false_of_not_contains hcont (by decide)
    have h3 : hasPrefix model ("publishers/".toList) = false :=
      hasPrefix_eq_false_of_not_contains hcont (by decide)
    simp at h1 h2 h3
    simp only [tModel, if_neg hne, hb]
    rw [if_neg (by simp [h1, h2, h3]), if_neg (by simp [hcont])]
  · intro hb hpre
    simp only [tModel, if_neg hne, hb]
    rw [if_pos hpre]
  · intro hb hpre
    simp at hpre
    simp only [tModel, if_neg hne, hb]
    rw [if_neg (by simp [hpre])]

/-- Witness for the model-transform rules at concrete identifiers on both
backends. -/
theorem tModel_backend_rules_witness :
    tModel cfgVertex (.str ("projects/x".toList)) = .ok ("projects/x".toList) ∧
    tModel cfgVertex (.str ("meta/llama".toList)) =
      .ok ("publishers/meta/models/llama".toList) ∧
    tModel cfgVertex (.str ("gemini-2.0".toList)) =
      .ok ("publishers/google/models/gemini-2.0".toList) ∧
    tModel cfgGemini (.str ("tunedModels/t".toList)) = .ok ("tunedModels/t".toList) ∧
    tModel cfgGemini (.str ("gemini-2.0".toList)) =
      .ok ("models/gemini-2.0".toList) := by
  refine ⟨?_, ?_, ?_, ?_, ?_⟩
  · exact (tModel_backend_rules cfgVertex _ (by decide)).1 rfl (by decide)
  · have h := (tModel_backend_rules cfgVertex ("meta/llama".toList) (by decide)).2.1 rfl
      ("meta".toList) ("llama".toList) (by decide) (by decide) (by decide)
      (by decide) (by decide)
    exact h.trans (by decide)
  · exact (tModel_backend_rules cfgVertex _ (by decide)).2.2.1 rfl (by decide)
  · exact (tModel_backend_rules cfgGemini _ (by decide)).2.2.2.1 rfl (by decide)
  · exact (tModel_backend_rules cfgGemini _ (by decide)).2.2.2.2 rfl (by decide)

/-- Claim C7: a token whose prefix is not `data`, and a `data` token whose
payload fails unmarshalling or conversion, each yield a per-item error
without terminating the sequence: a subsequent well-formed `data` token
still decodes into an event. -/
theorem stream_error_items_continue {M R : Type}
    (unmarshal : Str → Option String × M) (conv : M → Option R × Option String)
    (good gdata : Str) (m : M) (r : R)
    (hgood : splitFirst good ':' = ("data".toList, gdata)) (hgne : good ≠ [])
    (hparse : unmarshal gdata = (none, m)) (hconv : conv m = (some r, none)) :
    (∀ line : Str, line ≠ [] → (splitFirst line ':').1 ≠ "data".toList →
      iterateResponseStream unmarshal conv [line, good] =
        [(none, some (.invalidChunk (splitFirst line ':').1 (splitFirst line ':').2)),
         (some r, none)])
    ∧ (∀ bad bdata : Str, ∀ e : String, ∀ m' : M, bad ≠ [] →
        splitFirst bad ':' = ("data".toList, bdata) →
        unmarshal bdata = (some e, m') →
        ∃ extra, iterateResponseStream unmarshal conv [bad, good] =
          (none, some (.unmarshal bdata e)) :: (extra ++ [(some r, none)]))
    ∧ (∀ bad bdata : Str, ∀ m' : M, ∀ e : String, ∀ r' : Option R, bad ≠ [] →
        splitFirst bad ':' = ("data".toList, bdata) →
        unmarshal bdata = (none, m') → conv m' = (r', some e) →
        iterateResponseStream unmarshal conv [bad, good] =
          [(none, some (.convert e)), (r', none), (some r, none)]) := by
  have hgoodItems : tokenItems unmarshal conv good = [(some r, none)] := by
    simp [tokenItems, hgne, hgood, dataTokenItems, hparse, hconv]
  refine ⟨?_, ?_, ?_⟩
  · intro line hne hpre
    have hpre' : ¬ (splitFirst line ':').1 = ['d', 'a', 't', 'a'] := by simpa using hpre
    have hbadItems : tokenItems unmarshal conv line =
        [(none, some (.invalidChunk (splitFirst line ':').1 (splitFirst line ':').2))] := by
      simp [tokenItems, hne, hpre']
    simp [iterateResponseStream, hbadItems, hgoodItems]
  · intro bad bdata e m' hbne hbcut hbparse
    rcases hc : conv m' with ⟨r2, c2⟩
    have hbadItems : tokenItems unmarshal conv bad =
        (none, some (.unmarshal bdata e)) :: ((match c2 with
          | some e2 => [((none : Option R), some (StreamErr.convert e2))]
          | none => []) ++ [(r2, none)]) := by
      cases c2 <;> simp [tokenItems, hbne, hbcut, dataTokenItems, hbparse, hc]
    refine ⟨(match c2 with
      | some e2 => [((none : Option R), some (StreamErr.convert e2))]
      | none => []) ++ [(r2, none)], ?_⟩
    simp [iterateResponseStream, hbadItems, hgoodItems]
  · intro bad bdata m' e r' hbne hbcut hbparse hbconv
    have hbadItems : tokenItems unmarshal conv bad =
        [(none, some (.convert e)), (r', none)] := by
      simp [tokenItems, hbne, hbcut, dataTokenItems, hbparse, hbconv]
    simp [iterateResponseStream, hbadItems, hgoodItems]

/-- Witness for the stream per-item error claim: a non-`data` token
yields one error item and the following `data` token still decodes. -/
theorem stream_error_items_continue_witness :
    iterateResponseStream (fun s => ((none : Option String), s))
      (fun m => (some m, (none : Option String)))
      ["event:ping".toList, "data:x".toList] =
      [(none, some (.invalidChunk ("event".toList) ("ping".toList))),
       (some ("x".toList), none)] := by
  have h := (stream_error_items_continue (fun s => ((none : Option String), s))
    (fun m => (some m, (none : Option String))) ("data:x".toList) ("x".toList)
    ("x".toList) ("x".toList) (by decide) (by decide) rfl rfl).1
    ("event:ping".toList) (by decide) (by decide)
  simpa using h

/-- Claim C10: after a yielded unmarshal or conversion error the iterator
does not skip the faulty token: the conversion function still runs on the
(partially filled) map after an unmarshal failure, and an additional item
pairing a nil event with a nil error is yielded for the same token. -/
theorem stream_faulty_token_extra_item {M R : Type}
    (unmarshal : Str → Option String × M) (conv : M → Option R × Option String) :
    (∀ bad bdata : Str, ∀ e : String, ∀ m' : M, ∀ e2 : String, bad ≠ [] →
      splitFirst bad ':' = ("data".toList, bdata) →
      unmarshal bdata = (some e, m') → conv m' = (none, some e2) →
      iterateResponseStream unmarshal conv [bad] =
        [(none, some (.unmarshal bdata e)), (none, some (.convert e2)), (none, none)])
    ∧ (∀ bad bdata : Str, ∀ m' : M, ∀ e : String, bad ≠ [] →
      splitFirst bad ':' = ("data".toList, bdata) →
      unmarshal bdata = (none, m') → conv m' = (none, some e) →
      iterateResponseStream unmarshal conv [bad] =
        [(none, some (.convert e)), (none, none)]) := by
  constructor
  · intro bad bdata e m' e2 hbne hbcut hbparse hbconv
    have hbadItems : tokenItems unmarshal conv bad =
        [(none, some (.unmarshal bdata e)), (none, some (.convert e2)), (none, none)] := by
      simp [tokenItems, hbne, hbcut, dataTokenItems, hbparse, hbconv]
    simp [iterateResponseStream, hbadItems]
  · intro bad bdata m' e hbne hbcut hbparse hbconv
    have hbadItems : tokenItems unmarshal conv bad =
        [(none, some (.convert e)), (none, none)] := by
      simp [tokenItems, hbne, hbcut, dataTokenItems, hbparse, hbconv]
    simp [iterateResponseStream, hbadItems]

/-- Witness for the faulty-token claim: an unparsable `data` payload
yields the unmarshal error, the conversion error on the partial map, and
the trailing nil-nil item. -/
theorem stream_faulty_token_extra_item_witness :
    iterateResponseStream (fun _ => (some "bad json", ()))
      (fun _ => ((none : Option Unit), some "conv err")) ["data:oops".toList] =
      [(none, some (.unmarshal ("oops".toList) "bad json")),
       (none, some (.convert "conv err")), (none, none)] :=
  (stream_faulty_token_extra_item _ _).1 ("data:oops".toList) ("oops".toList)
    "bad json" () "conv err" (by decide) (by decide) rfl rfl

/-- `indexOfSub?` returns exactly the first occurrence index. -/
theorem indexOfSub_some_iff (pat data : List Nat) (i : Nat) :
    indexOfSub? pat data = some i ↔
      (OccursAt pat data i ∧ ∀ j, j < i → ¬ OccursAt pat data j) := by
  induction data generalizing i with
  | nil =>
    by_cases hp : pat.isPrefixOf ([] : List Nat) = true
    · simp only [indexOfSub?, if_pos hp]
      constructor
      · intro h
        obtain rfl : (0 : Nat) = i := by injection h
        exact ⟨by simpa [OccursAt] using hp, by omega⟩
      · rintro ⟨hocc, hmin⟩
        have hi : i = 0 := by
          by_contra hne
          exact hmin 0 (Nat.pos_of_ne_zero hne) (by simpa [OccursAt] using hp)
        simp [hi]
    · simp only [indexOfSub?, if_neg hp]
      constructor
      · intro h; cases h
      · rintro ⟨hocc, _⟩
        exact absurd (by simpa [OccursAt] using hocc) hp
  | cons d t ih =>
    by_cases hp : pat.isPrefixOf (d :: t) = true
    · simp only [indexOfSub?, if_pos hp]
      constructor
      · intro h
        obtain rfl : (0 : Nat) = i := by injection h
        exact ⟨by simpa [OccursAt] using hp, by omega⟩
      · rintro ⟨hocc, hmin⟩
        have hi : i = 0 := by
          by_contra hne
          exact hmin 0 (Nat.pos_of_ne_zero hne) (by simpa [OccursAt] using hp)
        simp [hi]
    · simp only [indexOfSub?, if_neg hp]
      constructor
      · intro h
        obtain ⟨k, hk, rfl⟩ := Option.map_eq_some'.mp h
        obtain ⟨hocc, hmin⟩ := (ih k).mp hk
        refine ⟨by simpa [OccursAt] using hocc, ?_⟩
        intro j hj
        cases j with
        | zero => exact fun hO => hp (by simpa [OccursAt] using hO)
        | succ j' =>
          intro hO
          exact hmin j' (by omega) (by simpa [OccursAt] using hO)
      · rintro ⟨hocc, hmin⟩
        cases i with
        | zero => exact absurd (by simpa [OccursAt] using hocc) hp
        | succ k =>
          have hk : indexOfSub? pat t = some k :=
            (ih k).mpr ⟨by simpa [OccursAt] using hocc,
              fun j hj hO => hmin (j + 1) (by omega) (by simpa [OccursAt] using hO)⟩
          simp [hk]

/-- `indexOfSub?` returns `none` exactly when the pattern never occurs. -/
theorem indexOfSub_none_iff (pat data : List Nat) :
    indexOfSub? pat data = none ↔ ∀ i, ¬ OccursAt pat data i := by
  induction data with
  | nil =>
    by_cases hp : pat.isPrefixOf ([] : List Nat) = true
    · simp only [indexOfSub?, if_pos hp]
      constructor
      · intro h; cases h
      · intro h; exact absurd (by simpa [OccursAt] using hp) (h 0)
    · simp only [indexOfSub?, if_neg hp]
      constructor
      · intro _ i
        exact fun hO => hp (by simpa [OccursAt] using hO)
      · intro _; trivial
  | cons d t ih =>
    by_cases hp : pat.isPrefixOf (d :: t) = true
    · simp only [indexOfSub?, if_pos hp]
      constructor
      · intro h; cases h
      · intro h; exact absurd (by simpa [OccursAt] using hp) (h 0)
    · simp only [indexOfSub?, if_neg hp]
      rw [Option.map_eq_none', ih]
      constructor
      · intro h i
        cases i with
        | zero => exact fun hO => hp (by simpa [OccursAt] using hO)
        | succ k => exact fun hO => h k (by simpa [OccursAt] using hO)
      · intro h k hO
        exact h (k + 1) (by simpa [OccursAt] using hO)

/-- Claim C1 as amended: the split function emits the bytes before the
first `\n\n` occurrence (a single trailing `\r` stripped) and advances
past it; only when `\n\n` never occurs does it use the first `\r\n\r\n`
occurrence; with no delimiter it emits the remaining bytes (trailing
`\r` stripped) at end-of-input (no token when empty) and otherwise
requests more data. -/
theorem scan_first_delimiter_amended (data : List Nat) (atEOF : Bool) :
    (∀ i, OccursAt [10, 10] data i ∧ (∀ j, j < i → ¬ OccursAt [10, 10] data j) →
      scan data atEOF = (i + 2, some (dropCR (data.take i))))
    ∧ ((∀ i, ¬ OccursAt [10, 10] data i) →
      ∀ i, OccursAt [13, 10, 13, 10] data i ∧
          (∀ j, j < i → ¬ OccursAt [13, 10, 13, 10] data j) →
      scan data atEOF = (i + 4, some (dropCR (data.take i))))
    ∧ ((∀ i, ¬ OccursAt [10, 10] data i) → (∀ i, ¬ OccursAt [13, 10, 13, 10] data i) →
      scan data atEOF =
        if atEOF then
          (if data = [] then (0, none) else (data.length, some (dropCR data)))
        else (0, none)) := by
  refine ⟨?_, ?_, ?_⟩
  · rintro i ⟨hocc, hmin⟩
    have h1 : indexOfSub? [10, 10] data = some i :=
      (indexOfSub_some_iff _ _ _).mpr ⟨hocc, hmin⟩
    have hd : data ≠ [] := by
      rintro rfl
      simp [OccursAt, List.isPrefixOf] at hocc
    simp [scan, hd, h1]
  · rintro hnone i ⟨hocc, hmin⟩
    have h1 : indexOfSub? [10, 10] data = none := (indexOfSub_none_iff _ _).mpr hnone
    have h2 : indexOfSub? [13, 10, 13, 10] data = some i :=
      (indexOfSub_some_iff _ _ _).mpr ⟨hocc, hmin⟩
    have hd : data ≠ [] := by
      rintro rfl
      simp [OccursAt, List.isPrefixOf] at hocc
    simp [scan, hd, h1, h2]
  · intro hn1 hn2
    have h1 : indexOfSub? [10, 10] data = none := (indexOfSub_none_iff _ _).mpr hn1
    have h2 : indexOfSub? [13, 10, 13, 10] data = none := (indexOfSub_none_iff _ _).mpr hn2
    by_cases hd : data = []
    · subst hd; cases atEOF <;> simp [scan, h1, h2]
    · cases atEOF <;> simp [scan, hd, h1, h2]

/-- Witness for the amended split-function claim on each branch: a `\n\n`
token, a `\r\n\r\n` token, and the final token at end-of-input. -/
theorem scan_first_delimiter_amended_witness :
    scan [100, 10, 10] false = (3, some [100]) ∧
    scan [100, 13, 10, 13, 10] true = (5, some [100]) ∧
    scan [100] true = (1, some [100]) := by
  refine ⟨?_, ?_, ?_⟩
  · exact ((scan_first_delimiter_amended [100, 10, 10] false).1 1 (by decide)).trans
      (by decide)
  · exact ((scan_first_delimiter_amended [100, 13, 10, 13, 10] true).2.1
      ((indexOfSub_none_iff [10, 10] [100, 13, 10, 13, 10]).mp (by decide))
      1 (by decide)).trans (by decide)
  · exact ((scan_first_delimiter_amended [100] true).2.2
      ((indexOfSub_none_iff [10, 10] [100]).mp (by decide))
      ((indexOfSub_none_iff [13, 10, 13, 10] [100]).mp (by decide))).trans (by decide)

/-- The upload loop can only return a `File` after observing the final
status `final` on the response that broke the loop (invariant: `acc`
holds one chunk per completed iteration). -/
theorem uploadChunks_file_final {F : Type} (env : UploadEnv F) (size : Nat) :
    ∀ fuel offset cmd i acc tr f,
      uploadChunks env size fuel offset cmd i acc = (tr, UploadResult.file f) →
      acc.length = i →
      env.status (tr.length - 1) = "final" := by
  intro fuel
  induction fuel with
  | zero =>
    intro offset cmd i acc tr f h _
    simp [uploadChunks] at h
  | succ fuel ih =>
    intro offset cmd i acc tr f h hlen
    simp only [uploadChunks] at h
    split at h
    · simp at h
    · split at h
      · simp at h
      · split at h
        · simp at h
        · split at h
          · have htr := congrArg Prod.fst h
            have hfin := congrArg Prod.snd h
            simp at htr hfin
            have hst : env.status i = "final" := by
              by_contra hne
              simp [finishUpload, hne] at hfin
            have hl : tr.length = i + 1 := by
              rw [← htr]; simp [hlen]
            rw [hl]
            simpa using hst
          · split at h
            · simp at h
            · exact ih _ _ _ _ _ _ h (by simp [hlen])

/-- The step equation of the upload loop for positive fuel. -/
theorem uploadChunks_succ {F : Type} (env : UploadEnv F) (size fuel offset : Nat)
    (cmd : String) (i : Nat) (acc : List Chunk) :
    uploadChunks env size (fuel + 1) offset cmd i acc =
      (let chunkSize := min maxChunkSize (size - offset)
       let cmd' := if size ≤ offset + chunkSize then cmd ++ ", finalize" else cmd
       match env.read i chunkSize with
       | .error _ => (acc, .error "Failed to read bytes from file")
       | .ok bytesRead =>
         if bytesRead ≠ chunkSize then
           (acc, .error "Failed to read bytes from file: short read")
         else
           let acc' := acc ++ [⟨offset, chunkSize, cmd'⟩]
           if env.bodyOk i = false then
             (acc', .error "response body is invalid")
           else if env.status i ≠ "active" then
             (acc', finishUpload env i)
           else if size ≤ offset + chunkSize then
             (acc', .error "All content has been uploaded, but the upload status is not finalized")
           else
             uploadChunks env size fuel (offset + chunkSize) cmd' (i + 1) acc') := rfl

set_option maxRecDepth 4000 in
/-- An exact `2 * maxChunkSize` upload with a well-behaved reader and
server sends exactly the two 8 MiB chunks, the second finalized. Stated
for any sufficient fuel. -/
theorem uploadChunks_two_exact {F : Type} (env : UploadEnv F) (fuel : Nat)
    (hread : ∀ i n, env.read i n = .ok n) (hbody : ∀ i, env.bodyOk i = true)
    (hst0 : env.status 0 = "active") :
    (uploadChunks env (2 * maxChunkSize) (fuel + 2) 0 "upload" 0 []).1 =
      [⟨0, maxChunkSize, "upload"⟩, ⟨maxChunkSize, maxChunkSize, "upload, finalize"⟩] := by
  have e0 : min maxChunkSize (2 * maxChunkSize - 0) = maxChunkSize := by omega
  have e1 : ¬ (2 * maxChunkSize ≤ 0 + maxChunkSize) := by
    have : (0 : Nat) < maxChunkSize := by norm_num [maxChunkSize]
    omega
  have e3 : 2 * maxChunkSize ≤ maxChunkSize + maxChunkSize := by omega
  have e4 : 2 * maxChunkSize - maxChunkSize = maxChunkSize := by omega
  rw [show fuel + 2 = (fuel + 1) + 1 from rfl, uploadChunks_succ]
  simp only [e0, hread, if_neg e1]
  simp [hbody, hst0]
  rw [uploadChunks_succ]
  by_cases hs1 : env.status 1 = "active" <;>
    simp [e4, e3, hread, hbody, hs1]

/-- Claim C4: an upload of exactly `2 * maxChunkSize` declared bytes from
a source delivering every requested byte sends exactly two chunks of
`maxChunkSize` bytes, only the second carrying the `upload, finalize`
command; and no upload ever returns a `File` unless the last response's
`X-Goog-Upload-Status` header is `final`. -/
theorem uploadFile_two_chunks_finalize {F : Type} (env : UploadEnv F) :
    ((∀ i n, env.read i n = .ok n) → (∀ i, env.bodyOk i = true) →
      env.status 0 = "active" →
      (uploadFile env (2 * maxChunkSize)).1 =
        [⟨0, maxChunkSize, "upload"⟩, ⟨maxChunkSize, maxChunkSize, "upload, finalize"⟩])
    ∧ (∀ size : Nat, ∀ tr : List Chunk, ∀ f : F,
        uploadFile env size = (tr, UploadResult.file f) →
        env.status (tr.length - 1) = "final") := by
  constructor
  · intro hread hbody hst0
    have hf : 2 * maxChunkSize + 1 = (2 * maxChunkSize - 1) + 2 := by
      norm_num [maxChunkSize]
    simp only [uploadFile, hf]
    exact uploadChunks_two_exact env (2 * maxChunkSize - 1) hread hbody hst0
  · intro size tr f h
    exact uploadChunks_file_final env size (size + 1) 0 "upload" 0 [] tr f h rfl

/-- A concrete upload environment: a reader that always delivers the
requested bytes and a server that answers `active` then `final`. -/
def env0 : UploadEnv Unit :=
  ⟨fun _ n => .ok n, fun _ => true, fun i => if i = 0 then "active" else "final",
   fun _ => some ()⟩

/-- Witness for the uploader claim in the concrete environment. -/
theorem uploadFile_two_chunks_finalize_witness :
    (uploadFile env0 (2 * maxChunkSize)).1 =
      [⟨0, maxChunkSize, "upload"⟩, ⟨maxChunkSize, maxChunkSize, "upload, finalize"⟩] :=
  (uploadFile_two_chunks_finalize env0).1 (fun _ _ => rfl) (fun _ => rfl) rfl
